import Mathlib

/-!
Verification development for the wKrQ/ACrQ signed-tableau prover.

The embedding below follows the repository source. The files
`acrq_tableau.py` and `theory_manager.py` are embedded directly. The
supporting modules (`formula.py`, `signs.py`, `semantics.py`, `tableau.py`,
`wkrq_rules.py`, `acrq_ferguson_rules.py`, `acrq_parser.py`) are not part of
the available source tree; the definitions taken from them are modelled from
the specification and are marked `Modelled from the spec:` in their doc
comments.
-/

namespace Wkrq

/-- Modelled from the spec: the three weak-Kleene truth values of
`semantics.py` (spec data model: TRUE, FALSE, UNDEFINED). -/
inductive TruthValue where
  | TRUE
  | FALSE
  | UNDEFINED
deriving DecidableEq, Repr

/-- Modelled from the spec: `BilateralTruthValue` of `semantics.py`, a pair
of truth values for positive and negative evidence. -/
structure BilateralTruthValue where
  positive : TruthValue
  negative : TruthValue
deriving DecidableEq, Repr

/-- Modelled from the spec: the six signs of `signs.py`. -/
inductive Sign where
  | t
  | f
  | e
  | m
  | n
  | v
deriving DecidableEq, Repr

/-- Modelled from the spec: terms of `formula.py` — variables and constants. -/
inductive Term where
  | var (name : String)
  | const (name : String)
deriving DecidableEq, Repr

/-- Modelled from the spec: the formula ADT of `formula.py`, with the
constructors used by `acrq_tableau.py`: `PredicateFormula(predicate_name,
terms)` is `pred`, `BilateralPredicateFormula(positive_name, terms,
is_negative)` is `bpred`, `CompoundFormula(op, subs)` with one subformula
(the `~` case) is `neg` and with two subformulas is `binary`, and the two
restricted quantifiers keep their shape. -/
inductive Formula where
  | pred (name : String) (terms : List Term)
  | bpred (positiveName : String) (terms : List Term) (isNegative : Bool)
  | neg (sub : Formula)
  | binary (op : String) (left : Formula) (right : Formula)
  | rexists (x : String) (restriction : Formula) (matrix : Formula)
  | rforall (x : String) (restriction : Formula) (matrix : Formula)
deriving DecidableEq, Repr

/-- `Formula.is_atomic`: true for predicate and bilateral-predicate formulas. -/
def Formula.isAtomic : Formula → Bool
  | .pred _ _ => true
  | .bpred _ _ _ => true
  | _ => false

/-- Modelled from the spec: `SignedFormula` of `signs.py`; equality is
structural over both components. -/
structure SignedFormula where
  sign : Sign
  formula : Formula
deriving DecidableEq, Repr

/-- Branch state: the per-sign formula index of `Branch` (spec data model)
is represented as an association list of `(sign, formula, node_id)` entries,
and `nodes` is the branch's node list (`node_id`, signed formula) in
insertion order. `closed` is the closure flag. -/
structure Branch where
  entries : List (Sign × Formula × Nat)
  nodes : List (Nat × SignedFormula)
  closed : Bool
deriving DecidableEq, Repr

/-- `self.formula_index[sign][formula]`: the node ids recorded under the
given sign for the given formula. -/
def lookupEntries (entries : List (Sign × Formula × Nat)) (s : Sign)
    (φ : Formula) : List Nat :=
  entries.filterMap fun ent => if ent.1 = s ∧ ent.2.1 = φ then some ent.2.2 else none

/-- Per-sign formula index probe on a branch. -/
def indexLookup (b : Branch) (s : Sign) (φ : Formula) : List Nat :=
  lookupEntries b.entries s φ

/-- `self.nodes[node_id]` lookup. -/
def nodesLookup (ns : List (Nat × SignedFormula)) (i : Nat) : Option SignedFormula :=
  (ns.find? fun p => p.1 == i).map fun p => p.2

/-- Base name, polarity and argument terms of a predicate or bilateral
predicate, as computed inline in `ACrQBranch._is_bilateral_glut`
(acrq_tableau.py lines 69-81 and 91-100): a `BilateralPredicateFormula`
reports its positive name and `is_negative` flag; a regular
`PredicateFormula` whose name ends in a star is split into base name and
negative polarity. -/
def atomInfo : Formula → Option (String × Bool × List Term)
  | .bpred p ts isNeg => some (p, isNeg, ts)
  | .pred nm ts =>
      if nm.endsWith "*" then some (nm.dropRight 1, true, ts)
      else some (nm, false, ts)
  | _ => none

/-- `ACrQBranch._is_bilateral_glut` (acrq_tableau.py lines 59-108): scans the
nodes recorded under the same sign for the same formula and reports a glut
when one of them is the bilateral dual with matching arguments. The source
compares argument lists by their string representation; that comparison is
modelled as list equality. -/
def isBilateralGlut (b : Branch) (φ : Formula) (s : Sign) : Bool :=
  match atomInfo φ with
  | none => false
  | some (base, isNeg, ts) =>
    (indexLookup b s φ).any fun nid =>
      match nodesLookup b.nodes nid with
      | none => false
      | some osf =>
        match atomInfo osf.formula with
        | none => false
        | some (obase, oneg, ots) =>
          decide (base = obase) && decide (isNeg ≠ oneg) && decide (ts = ots)

/-- The loop of `ACrQBranch._check_contradiction` (acrq_tableau.py lines
45-57) over `other_sign in [t, f, e]`: on the first probed sign whose index
holds the formula, the branch closes unless the (new sign, probed sign)
pair is `(t, t)` and the bilateral-glut whitelist accepts it. -/
def checkContradictionAux (b : Branch) (s : Sign) (φ : Formula) :
    List Sign → Bool
  | [] => false
  | os :: rest =>
    if os ≠ s ∧ indexLookup b os φ ≠ [] then
      if s = Sign.t ∧ os = Sign.t then
        if isBilateralGlut b φ s then false else true
      else true
    else checkContradictionAux b s φ rest

/-- `ACrQBranch._check_contradiction` (acrq_tableau.py lines 32-57). -/
def checkContradiction (b : Branch) (nf : SignedFormula) : Bool :=
  checkContradictionAux b nf.sign nf.formula [Sign.t, Sign.f, Sign.e]

/-- The plain distinct-sign closure check, written from the claim's own
wording for the refinement comparison: the branch's per-sign index already
contains the identical formula under a sign from {t, f, e} distinct from
the new formula's sign. -/
def checkContradictionPlain (b : Branch) (nf : SignedFormula) : Bool :=
  [Sign.t, Sign.f, Sign.e].any fun os =>
    decide (os ≠ nf.sign ∧ indexLookup b os nf.formula ≠ [])

/-- Modelled from the spec: `Branch.add_formula` of the missing
`tableau.py` — inserting a signed formula appends a node, updates the
per-sign index, and probes closure through `_check_contradiction` (spec:
closure is checked at every insertion; `apply_rule` in acrq_tableau.py
consumes its closure verdict). The probe only inspects signs distinct from
the inserted one, so probing before or after the insertion is equivalent. -/
def addFormula (b : Branch) (sf : SignedFormula) (nodeId : Nat) : Branch :=
  let closes := checkContradiction b sf
  { entries := b.entries ++ [(sf.sign, sf.formula, nodeId)]
    nodes := b.nodes ++ [(nodeId, sf)]
    closed := b.closed || closes }

/-- The empty branch. -/
def emptyBranch : Branch :=
  { entries := [], nodes := [], closed := false }

/-- Helper for `initBranch`. -/
def initBranchAux : Branch → Nat → List SignedFormula → Branch
  | b, _, [] => b
  | b, i, sf :: rest => initBranchAux (addFormula b sf i) (i + 1) rest

/-- Modelled from the spec: tableau initialisation of the missing
`tableau.py` — the initial signed formulas are added in order to the
single initial branch, with node ids counting from 0. -/
def initBranch (initial : List SignedFormula) : Branch :=
  initBranchAux emptyBranch 0 initial

/-- Modelled from the spec: the wKrQ/ACrQ rule conclusions of the missing
`wkrq_rules.py` / `acrq_ferguson_rules.py`, by outermost shape (spec rule
table): negation swaps under t/f, is fixed under e, and swaps m with n;
`t: φ∧ψ` is the conjunctive α; `f: φ∧ψ`, `t: φ∨ψ` and `t: φ→ψ` are the
three-branch β forms whose last branch is the error branch `(e: φ ; e: ψ)`;
`f: φ∨ψ` and `f: φ→ψ` are α; `m: φ` splits into t and f and `n: φ` into f
and e. The e-signed binary-connective cases (spec: "symmetric", with a
companion constraint) and the quantifier cases are not needed by any claim
and are not modelled (they yield `none` here); a t/f/e-signed atomic
formula has no rule. -/
def getWkrqConclusions (sf : SignedFormula) : Option (List (List SignedFormula)) :=
  match sf.sign, sf.formula with
  | Sign.t, Formula.neg φ => some [[⟨Sign.f, φ⟩]]
  | Sign.f, Formula.neg φ => some [[⟨Sign.t, φ⟩]]
  | Sign.e, Formula.neg φ => some [[⟨Sign.e, φ⟩]]
  | Sign.m, Formula.neg φ => some [[⟨Sign.n, φ⟩]]
  | Sign.n, Formula.neg φ => some [[⟨Sign.m, φ⟩]]
  | Sign.t, Formula.binary "&" φ ψ => some [[⟨Sign.t, φ⟩, ⟨Sign.t, ψ⟩]]
  | Sign.f, Formula.binary "&" φ ψ =>
      some [[⟨Sign.f, φ⟩], [⟨Sign.f, ψ⟩], [⟨Sign.e, φ⟩, ⟨Sign.e, ψ⟩]]
  | Sign.t, Formula.binary "|" φ ψ =>
      some [[⟨Sign.t, φ⟩], [⟨Sign.t, ψ⟩], [⟨Sign.e, φ⟩, ⟨Sign.e, ψ⟩]]
  | Sign.f, Formula.binary "|" φ ψ => some [[⟨Sign.f, φ⟩, ⟨Sign.f, ψ⟩]]
  | Sign.t, Formula.binary "->" φ ψ =>
      some [[⟨Sign.f, φ⟩], [⟨Sign.t, ψ⟩], [⟨Sign.e, φ⟩, ⟨Sign.e, ψ⟩]]
  | Sign.f, Formula.binary "->" φ ψ => some [[⟨Sign.t, φ⟩, ⟨Sign.f, ψ⟩]]
  | Sign.m, φ => some [[⟨Sign.t, φ⟩], [⟨Sign.f, φ⟩]]
  | Sign.n, φ => some [[⟨Sign.f, φ⟩], [⟨Sign.e, φ⟩]]
  | _, _ => none

/-- String prefix test, implemented structurally so that concrete runs
reduce (the library `String.startsWith` is implemented with a well-founded
loop): it agrees with `startswith` on the character list. -/
def strStartsWith (s pre : String) : Bool :=
  pre.toList.isPrefixOf s.toList

/-- `RuleInfo` as constructed in `acrq_tableau.py` (lines 290-297 and
396-402): name, priority, complexity cost and conclusion branches. -/
structure RuleInfo where
  name : String
  priority : Nat
  complexityCost : Nat
  conclusions : List (List SignedFormula)
deriving DecidableEq, Repr

/-- The sign chosen for an oracle verdict component in
`_create_llm_evaluation_rule` (acrq_tableau.py lines 356-362 and 380-386):
TRUE gives t, FALSE gives f, UNDEFINED gives e. -/
def signOfTruthValue : TruthValue → Sign
  | .TRUE => Sign.t
  | .FALSE => Sign.f
  | .UNDEFINED => Sign.e

/-- The dual formula built in `_create_llm_evaluation_rule` (acrq_tableau.py
lines 368-377): a bilateral predicate yields `get_dual()` (same positive
name, flipped polarity — modelled from the spec for the missing
`formula.py`), and a regular predicate is upgraded to the negative
bilateral form. -/
def getDual : Formula → Option Formula
  | .bpred p ts isNeg => some (.bpred p ts (!isNeg))
  | .pred nm ts => some (.bpred nm ts true)
  | _ => none

/-- The conclusion set of the oracle rule (acrq_tableau.py lines 351-389):
one signed formula for the positive component on the formula itself, and —
for predicate or bilateral formulas, which is every atomic formula here —
one for the negative component on the dual. -/
def llmConclusionSet (φ : Formula) (bv : BilateralTruthValue) : List SignedFormula :=
  let posC : SignedFormula := ⟨signOfTruthValue bv.positive, φ⟩
  match getDual φ with
  | some d => [posC, ⟨signOfTruthValue bv.negative, d⟩]
  | none => [posC]

/-- `ACrQTableau._create_llm_evaluation_rule` (acrq_tableau.py lines
320-402), instrumented with the list of oracle invocations it performs
(second component). The evaluator returning `none` models the evaluator
raising an exception, which the source catches (lines 344-349) and turns
into "no rule". The formula is checked against the branch's
`_llm_evaluated` memo before the evaluator is called, and is not marked
here (line 394: marking happens at rule application). -/
def createLLMEvaluationRule (g : Formula → Option BilateralTruthValue)
    (evaluated : List Formula) (sf : SignedFormula) :
    Option RuleInfo × List Formula :=
  if ¬ sf.formula.isAtomic then (none, [])
  else if sf.formula ∈ evaluated then (none, [])
  else
    match g sf.formula with
    | none => (none, [sf.formula])
    | some bv =>
      let cs := llmConclusionSet sf.formula bv
      (some { name := "LLM-Eval", priority := 5, complexityCost := cs.length,
              conclusions := [cs] }, [sf.formula])

/-- `ACrQTableau._get_applicable_rule` (acrq_tableau.py lines 248-303): a
Ferguson rule takes precedence (α priority 10, β priority 20, complexity
cost the number of conclusion branches); otherwise, when an evaluator is
installed and the formula is atomic, the oracle rule is attempted. The
second component records the oracle invocations made. -/
def getApplicableRuleT (evaluator : Option (Formula → Option BilateralTruthValue))
    (evaluated : List Formula) (sf : SignedFormula) :
    Option RuleInfo × List Formula :=
  match getWkrqConclusions sf with
  | some concl =>
      (some { name := "Ferguson",
              priority := if concl.length > 1 then 20 else 10,
              complexityCost := concl.length,
              conclusions := concl }, [])
  | none =>
    match evaluator with
    | none => (none, [])
    | some g => createLLMEvaluationRule g evaluated sf

/-- Modelled from the spec: `_get_prioritized_rules` of the missing
`tableau.py` — one rule-selection step scans the selected branch's nodes in
order and collects the applicable rule of each (spec proof-search loop,
step 2). Oracle invocations made while building oracle rules are
accumulated in the second component. -/
def scanRulesAux (evaluator : Option (Formula → Option BilateralTruthValue))
    (evaluated : List Formula) :
    List (Nat × SignedFormula) → List (Nat × SignedFormula × RuleInfo) × List Formula
  | [] => ([], [])
  | (nid, sf) :: rest =>
    let head := getApplicableRuleT evaluator evaluated sf
    let tail := scanRulesAux evaluator evaluated rest
    ((match head.1 with
      | some ri => [(nid, sf, ri)]
      | none => []) ++ tail.1,
     head.2 ++ tail.2)

/-- Strictly-better-rule comparison: lexicographic on (priority ascending,
complexity cost ascending, node id ascending) — the sort key of the spec's
rule-selection step. -/
def betterRule (a b : Nat × SignedFormula × RuleInfo) : Bool :=
  decide (a.2.2.priority < b.2.2.priority ∨
    (a.2.2.priority = b.2.2.priority ∧
      (a.2.2.complexityCost < b.2.2.complexityCost ∨
        (a.2.2.complexityCost = b.2.2.complexityCost ∧ a.1 < b.1))))

/-- The first element of the prioritized rule list (src line 430:
`applicable_rules[0]`), computed as the minimum under `betterRule`, keeping
the earlier element on ties. -/
def selectBest : List (Nat × SignedFormula × RuleInfo) →
    Option (Nat × SignedFormula × RuleInfo)
  | [] => none
  | x :: rest =>
      some (rest.foldl (fun acc y => if betterRule y acc then y else acc) x)

/-- Engine state of `ACrQTableau.construct` for the single-branch runs
modelled here (the oracle rule is an α-rule and never splits the branch,
so `self.branches` stays a singleton): the branch, the tableau node
counter, the branch's `_llm_evaluated` memo, the trace of oracle
invocations, the loop-iteration counter, the `max_branching_factor`
attribute, and a flag recording that a rule outside the modelled fragment
(a Ferguson rule, whose application lives in the missing `tableau.py`
base class) was selected. -/
structure EngineState where
  branch : Branch
  nodeCounter : Nat
  llmEvaluated : List Formula
  oracleCalls : List Formula
  iterations : Nat
  maxBranchingFactor : Nat
  unmodeledRuleHit : Bool
deriving Repr

/-- The LLM-Eval branch of `ACrQTableau.apply_rule` (acrq_tableau.py lines
496-511): each conclusion always gets a fresh node and is inserted through
`add_formula`; on closure the application returns immediately (so the
premise is not marked evaluated). -/
def applyLLMConclusions : EngineState → List SignedFormula → EngineState
  | s, [] => s
  | s, sf :: rest =>
    let b := addFormula s.branch sf s.nodeCounter
    let s1 := { s with branch := b, nodeCounter := s.nodeCounter + 1 }
    if b.closed then s1 else applyLLMConclusions s1 rest

/-- Outcome of one check of the `while` condition plus (when it holds) one
loop-body execution: `stop` carries the final state, `next` the state the
loop continues from. -/
inductive StepOut where
  | stop (s : EngineState)
  | next (s : EngineState)
deriving Repr

/-- One round of the main loop of `ACrQTableau.construct` (acrq_tableau.py
lines 409-462). The guard keeps the source's `while` conditions
specialised to the single-branch runs modelled here: an open branch
remains (`self.open_branches and not self.is_complete()`, with
`is_complete` modelled from the spec as "no open branch remains") and
`len(self.branches) < self.max_branching_factor` is `1 < max`. One
iteration scans the branch for rules (recording oracle invocations),
breaks when none applies, and otherwise applies the best rule; after a
successful LLM-Eval application the premise formula is marked evaluated
(lines 513-517). The early-termination block (lines 436-462) is dead in
both configurations: without an evaluator its inner `break` only leaves
the `for` loop, and with an evaluator `early_termination` was already set
to False at line 214 — so it is not modelled. Selection of a Ferguson
rule would enter the base-class `apply_rule` of the missing `tableau.py`;
that path is outside the modelled fragment and sets `unmodeledRuleHit`
(every run used below stays in the atomic fragment, where it is
unreachable). An LLM rule always carries exactly one conclusion list; the
source's apply loop is a no-op otherwise (line 496), so the loop just
continues there. -/
def constructStep (evaluator : Option (Formula → Option BilateralTruthValue))
    (s : EngineState) : StepOut :=
  if s.branch.closed = false ∧ 1 < s.maxBranchingFactor then
    let s1 : EngineState := { s with iterations := s.iterations + 1 }
    let scanned := scanRulesAux evaluator s1.llmEvaluated s1.branch.nodes
    let s2 : EngineState := { s1 with oracleCalls := s1.oracleCalls ++ scanned.2 }
    match selectBest scanned.1 with
    | none => StepOut.stop s2
    | some (_, psf, ri) =>
      if strStartsWith ri.name "LLM-Eval" then
        match ri.conclusions with
        | [cs] =>
          let s3 := applyLLMConclusions s2 cs
          if s3.branch.closed then StepOut.next s3
          else StepOut.next { s3 with llmEvaluated := psf.formula :: s3.llmEvaluated }
        | _ => StepOut.next s2
      else StepOut.stop { s2 with unmodeledRuleHit := true }
  else StepOut.stop s

/-- The main loop of `ACrQTableau.construct`, with the remaining fuel
standing for `iteration < max_iterations`. -/
def runLoop (evaluator : Option (Formula → Option BilateralTruthValue)) :
    Nat → EngineState → EngineState
  | 0, s => s
  | fuel + 1, s =>
    match constructStep evaluator s with
    | StepOut.stop s2 => s2
    | StepOut.next s2 => runLoop evaluator fuel s2

/-- Initial engine state: the initial formulas populate the single branch
(node ids from 0) and the node counter continues after them. -/
def initState (initial : List SignedFormula) (maxBF : Nat) : EngineState :=
  { branch := initBranch initial
    nodeCounter := initial.length
    llmEvaluated := []
    oracleCalls := []
    iterations := 0
    maxBranchingFactor := maxBF
    unmodeledRuleHit := false }

/-- Modelled from the spec: a model as extracted by `_extract_model` of the
missing `tableau.py` (spec model extraction): each formula on the open
branch is assigned TRUE, FALSE or UNDEFINED according to its sign t, f or
e; m/n/v-signed occurrences contribute nothing. -/
def extractModel (b : Branch) : List (Formula × TruthValue) :=
  b.nodes.filterMap fun p =>
    match p.2.sign with
    | Sign.t => some (p.2.formula, TruthValue.TRUE)
    | Sign.f => some (p.2.formula, TruthValue.FALSE)
    | Sign.e => some (p.2.formula, TruthValue.UNDEFINED)
    | _ => none

/-- Modelled from the spec: `TableauResult` of the missing `tableau.py`.
Fields follow the spec's result record (satisfiable, models, branch
counts, total nodes) plus the `incomplete` flag the spec's error-handling
section describes, defaulting to false; the constructor call in
`ACrQTableau.construct` (acrq_tableau.py lines 477-484) passes only the
five data fields, so `incomplete` keeps its default there. -/
structure TableauResult where
  satisfiable : Bool
  models : List (List (Formula × TruthValue))
  closedBranches : Nat
  openBranches : Nat
  totalNodes : Nat
  incomplete : Bool := false
deriving Repr

/-- Result assembly of `ACrQTableau.construct` (acrq_tableau.py lines
464-484): models come from the open branches (here the single branch when
it is open; model deduplication is trivial with one branch), and
`satisfiable` is `len(models) > 0`. -/
def resultOfState (s : EngineState) : TableauResult :=
  let models := if s.branch.closed then [] else [extractModel s.branch]
  { satisfiable := decide (0 < models.length)
    models := models
    closedBranches := if s.branch.closed then 1 else 0
    openBranches := if s.branch.closed then 0 else 1
    totalNodes := s.branch.nodes.length }

/-- The final engine state of `ACrQTableau.construct`, with the source's
hard-coded `max_iterations = 1000` (acrq_tableau.py line 406). -/
def constructStateACrQ (evaluator : Option (Formula → Option BilateralTruthValue))
    (initial : List SignedFormula) (maxBF : Nat) : EngineState :=
  runLoop evaluator 1000 (initState initial maxBF)

/-- `ACrQTableau.construct`: run the loop and assemble the result. -/
def constructACrQ (evaluator : Option (Formula → Option BilateralTruthValue))
    (initial : List SignedFormula) (maxBF : Nat) : TableauResult :=
  resultOfState (constructStateACrQ evaluator initial maxBF)

/-- `Statement` of theory_manager.py, restricted to the fields that
`check_satisfiability` reads: the optional formula string and the sign
string. -/
structure Statement where
  id : String
  naturalLanguage : String
  formula : Option String
  sign : String
deriving DecidableEq, Repr

/-- `InformationState` of theory_manager.py (predicate and state strings;
the evidence list is not needed by any claim). -/
structure InformationState where
  predicate : String
  state : String
deriving DecidableEq, Repr

/-- The sign conversion of `TheoryManager.check_satisfiability`
(theory_manager.py lines 283-284): `sign_map = {"t": t, "f": f, "e": e}`
with `sign_map.get(stmt.sign, t)`, so any other sign string (m, n, v, or
anything else) falls back to t. -/
def signMapGet (s : String) : Sign :=
  if s = "t" then Sign.t
  else if s = "f" then Sign.f
  else if s = "e" then Sign.e
  else Sign.t

/-- The formula-collection loop of `TheoryManager.check_satisfiability`
(theory_manager.py lines 274-287): a statement contributes a signed
formula when its formula string is present and truthy (non-empty), does
not start with the comment marker, and parses; parse failures are skipped.
The parser (`parse_acrq_formula` of the missing `acrq_parser.py`) is a
parameter, with `none` modelling a raised parse error. -/
def collectFormulas (parse : String → Option Formula)
    (stmts : List Statement) : List SignedFormula :=
  stmts.filterMap fun st =>
    match st.formula with
    | none => none
    | some fs =>
      if fs = "" then none
      else if strStartsWith fs "//" then none
      else
        match parse fs with
        | none => none
        | some φ => some ⟨signMapGet st.sign, φ⟩

/-- `TheoryManager.check_satisfiability` (theory_manager.py lines 269-304):
collect the usable signed formulas; with none, return `(True, [])` without
building a tableau; otherwise build the tableau, construct, and return the
satisfiability verdict with the information-state analysis. Tableau
construction and the analysis (`_analyze_information_states`) are
parameters here, since no claim constrains the analysis output. -/
def checkSatisfiability (parse : String → Option Formula)
    (tableau : List SignedFormula → TableauResult)
    (analyze : TableauResult → List InformationState)
    (stmts : List Statement) : Bool × List InformationState :=
  let formulas := collectFormulas parse stmts
  if formulas.isEmpty then (true, [])
  else
    let r := tableau formulas
    (r.satisfiable, analyze r)

/-! Concrete scenario material used by the theorems below. -/

/-- The constant `tweety` of test_direct_glut.py. -/
def tweety : Term := Term.const "tweety"

/-- The constant `socrates` of test_llm_integration.py. -/
def socrates : Term := Term.const "socrates"

/-- A generic ground constant. -/
def aTerm : Term := Term.const "a"

/-- `Human(socrates)`. -/
def humanSocrates : Formula := Formula.pred "Human" [socrates]

/-- `P(a)`. -/
def pAtom : Formula := Formula.pred "P" [aTerm]

/-- `Q(a)`. -/
def qAtom : Formula := Formula.pred "Q" [aTerm]

/-- Oracle of the claim-C4 scenario: `Human(socrates)` is refuted
(`<FALSE, TRUE>`); everything else reports a gap. -/
def oracleRefutesHuman : Formula → Option BilateralTruthValue :=
  fun φ =>
    if φ = humanSocrates then some ⟨TruthValue.FALSE, TruthValue.TRUE⟩
    else some ⟨TruthValue.FALSE, TruthValue.FALSE⟩

/-- Oracle answering `<TRUE, TRUE>` (a glut) on every atom — the
conclusions it induces are all t-signed, so no branch ever closes. -/
def oracleAllGlut : Formula → Option BilateralTruthValue :=
  fun _ => some ⟨TruthValue.TRUE, TruthValue.TRUE⟩

/-- The atom whose oracle evaluation fails in the claim-C6 scenario. -/
def brokenAtom : Formula := Formula.pred "Broken" []

/-- The atom whose oracle evaluation succeeds in the claim-C6 scenario. -/
def goodAtom : Formula := Formula.pred "Good" []

/-- Oracle that raises (modelled as `none`) on `Broken` and answers a glut
elsewhere. -/
def oracleFailsBroken : Formula → Option BilateralTruthValue :=
  fun φ => if φ = brokenAtom then none else some ⟨TruthValue.TRUE, TruthValue.TRUE⟩

/-- Number of oracle invocations recorded for a given formula. -/
def callCount (l : List Formula) (φ : Formula) : Nat :=
  (l.filter fun ψ => decide (ψ = φ)).length

/-! Helper lemmas. -/

theorem lookupEntries_not_sign (entries : List (Sign × Formula × Nat)) (s : Sign)
    (φ : Formula) (h : ∀ q ∈ entries, q.1 ≠ s) : lookupEntries entries s φ = [] := by
  induction entries with
  | nil => rfl
  | cons q rest ih =>
    have hq := h q (List.mem_cons_self q rest)
    unfold lookupEntries
    rw [List.filterMap_cons]
    have hcond : (if q.1 = s ∧ q.2.1 = φ then some q.2.2 else none) = none := by
      rw [if_neg]
      rintro ⟨h1, _⟩
      exact hq h1
    rw [hcond]
    exact ih fun r hr => h r (List.mem_cons_of_mem q hr)

theorem checkContradiction_no_hits (b : Branch) (sf : SignedFormula)
    (h : ∀ os, os ≠ sf.sign → indexLookup b os sf.formula = []) :
    checkContradiction b sf = false := by
  have hc : ∀ os, ¬ (os ≠ sf.sign ∧ indexLookup b os sf.formula ≠ []) := by
    rintro os ⟨h1, h2⟩
    exact h2 (h os h1)
  simp only [checkContradiction, checkContradictionAux]
  rw [if_neg (hc Sign.t), if_neg (hc Sign.f), if_neg (hc Sign.e)]

theorem checkContradiction_empty_entries (b : Branch) (sf : SignedFormula)
    (hent : b.entries = []) : checkContradiction b sf = false :=
  checkContradiction_no_hits b sf fun os _ => by
    simp [indexLookup, hent, lookupEntries]

theorem checkContradiction_all_t (b : Branch) (sf : SignedFormula)
    (hb : ∀ q ∈ b.entries, q.1 = Sign.t) (hs : sf.sign = Sign.t) :
    checkContradiction b sf = false :=
  checkContradiction_no_hits b sf fun os hos =>
    lookupEntries_not_sign b.entries os sf.formula fun q hq => by
      rw [hb q hq, hs] at *
      rw [hs] at hos
      exact fun hx => hos hx.symm

/-- A t/f/e-signed atomic formula has no wKrQ/ACrQ rule. -/
theorem getWkrqConclusions_atomic_none (s : Sign) (φ : Formula)
    (ha : φ.isAtomic = true)
    (hs : s = Sign.t ∨ s = Sign.f ∨ s = Sign.e) :
    getWkrqConclusions ⟨s, φ⟩ = none := by
  cases φ with
  | pred nm ts => rcases hs with h | h | h <;> subst h <;> rfl
  | bpred p ts b => rcases hs with h | h | h <;> subst h <;> rfl
  | neg ψ => simp [Formula.isAtomic] at ha
  | binary op ψ χ => simp [Formula.isAtomic] at ha
  | rexists x r mx => simp [Formula.isAtomic] at ha
  | rforall x r mx => simp [Formula.isAtomic] at ha

/-- With no evaluator installed, a scan of atomic t/f/e-signed nodes yields
no applicable rule and performs no oracle invocation. -/
theorem scanRulesAux_atomic_no_evaluator (ev : List Formula)
    (nodes : List (Nat × SignedFormula))
    (h : ∀ p ∈ nodes, p.2.formula.isAtomic = true ∧
      (p.2.sign = Sign.t ∨ p.2.sign = Sign.f ∨ p.2.sign = Sign.e)) :
    scanRulesAux none ev nodes = ([], []) := by
  induction nodes with
  | nil => rfl
  | cons p rest ih =>
    have hp := h p (List.mem_cons_self p rest)
    have hr : getWkrqConclusions p.2 = none :=
      getWkrqConclusions_atomic_none p.2.sign p.2.formula hp.1 hp.2
    have ihr := ih fun q hq => h q (List.mem_cons_of_mem p hq)
    simp [scanRulesAux, getApplicableRuleT, hr, ihr]

theorem runLoop_of_closed (ev : Option (Formula → Option BilateralTruthValue))
    (fuel : Nat) (s : EngineState) (h : s.branch.closed = true) :
    runLoop ev fuel s = s := by
  cases fuel with
  | zero => rfl
  | succ fuel => simp [runLoop, constructStep, h]

theorem runLoop_branch_no_rules (ev : Option (Formula → Option BilateralTruthValue))
    (fuel : Nat) (s : EngineState)
    (hscan : (scanRulesAux ev s.llmEvaluated s.branch.nodes).1 = []) :
    (runLoop ev (fuel + 1) s).branch = s.branch := by
  by_cases hg : s.branch.closed = false ∧ 1 < s.maxBranchingFactor
  · simp [runLoop, constructStep, hg, hscan, selectBest]
  · simp [runLoop, constructStep, hg]

theorem construct_closed_unsat (init : List SignedFormula)
    (h : (initBranch init).closed = true)
    (ev : Option (Formula → Option BilateralTruthValue)) (maxBF : Nat) :
    (constructACrQ ev init maxBF).satisfiable = false := by
  have hrun : constructStateACrQ ev init maxBF = initState init maxBF :=
    runLoop_of_closed ev 1000 (initState init maxBF) h
  simp [constructACrQ, hrun, resultOfState, initState, h]

theorem applyLLMConclusions_preserves (cs : List SignedFormula) (s : EngineState) :
    (applyLLMConclusions s cs).llmEvaluated = s.llmEvaluated
    ∧ (applyLLMConclusions s cs).oracleCalls = s.oracleCalls
    ∧ (applyLLMConclusions s cs).iterations = s.iterations
    ∧ (applyLLMConclusions s cs).maxBranchingFactor = s.maxBranchingFactor := by
  induction cs generalizing s with
  | nil => exact ⟨rfl, rfl, rfl, rfl⟩
  | cons sf rest ih =>
    unfold applyLLMConclusions
    by_cases h : (addFormula s.branch sf s.nodeCounter).closed
    · simp [h]
    · simp only [h, if_false]
      exact ih _

theorem createLLMEvaluationRule_calls (g : Formula → Option BilateralTruthValue)
    (evl : List Formula) (sf : SignedFormula) (ψ : Formula)
    (h : ψ ∈ (createLLMEvaluationRule g evl sf).2) : ψ ∉ evl := by
  unfold createLLMEvaluationRule at h
  by_cases h1 : sf.formula.isAtomic
  · rw [if_neg (by simpa using h1)] at h
    by_cases h2 : sf.formula ∈ evl
    · simp [h2] at h
    · rw [if_neg h2] at h
      cases hg : g sf.formula <;> rw [hg] at h <;> simp at h <;> subst h <;> exact h2
  · rw [if_pos (by simpa using h1)] at h
    simp at h

theorem getApplicableRuleT_calls
    (ev : Option (Formula → Option BilateralTruthValue))
    (evl : List Formula) (sf : SignedFormula) (ψ : Formula)
    (h : ψ ∈ (getApplicableRuleT ev evl sf).2) : ψ ∉ evl := by
  unfold getApplicableRuleT at h
  cases hw : getWkrqConclusions sf <;> rw [hw] at h
  · cases ev with
    | none => simp at h
    | some g => exact createLLMEvaluationRule_calls g evl sf ψ h
  · simp at h

theorem scanRulesAux_calls (ev : Option (Formula → Option BilateralTruthValue))
    (evl : List Formula) (nodes : List (Nat × SignedFormula)) (ψ : Formula)
    (h : ψ ∈ (scanRulesAux ev evl nodes).2) : ψ ∉ evl := by
  induction nodes with
  | nil => simp [scanRulesAux] at h
  | cons p rest ih =>
    unfold scanRulesAux at h
    rw [List.mem_append] at h
    rcases h with h | h
    · exact getApplicableRuleT_calls ev evl p.2 ψ h
    · exact ih h

theorem callCount_append (a b : List Formula) (φ : Formula) :
    callCount (a ++ b) φ = callCount a φ + callCount b φ := by
  simp [callCount, List.filter_append]

theorem callCount_eq_zero (l : List Formula) (φ : Formula)
    (h : ∀ ψ ∈ l, ψ ≠ φ) : callCount l φ = 0 := by
  induction l with
  | nil => rfl
  | cons ψ rest ih =>
    have hψ := h ψ (List.mem_cons_self ψ rest)
    simp [callCount, List.filter_cons, hψ]
    have := ih fun χ hχ => h χ (List.mem_cons_of_mem ψ hχ)
    simpa [callCount] using this

/-- The state carried by a step outcome. -/
def stepState : StepOut → EngineState
  | StepOut.stop s => s
  | StepOut.next s => s

/-- State facts across one loop round: evaluated formulas are preserved,
the iteration counter grows by at most one, and the oracle-call trace only
grows by formulas that were not yet marked evaluated. -/
theorem constructStep_facts (ev : Option (Formula → Option BilateralTruthValue))
    (s : EngineState) :
    s.llmEvaluated ⊆ (stepState (constructStep ev s)).llmEvaluated
    ∧ (stepState (constructStep ev s)).iterations ≤ s.iterations + 1
    ∧ ∃ extra, (stepState (constructStep ev s)).oracleCalls = s.oracleCalls ++ extra
        ∧ ∀ ψ ∈ extra, ψ ∉ s.llmEvaluated := by
  have hscan := scanRulesAux_calls ev s.llmEvaluated s.branch.nodes
  unfold constructStep
  by_cases hg : s.branch.closed = false ∧ 1 < s.maxBranchingFactor
  · simp only [if_pos hg]
    cases hsel : selectBest (scanRulesAux ev s.llmEvaluated s.branch.nodes).1 with
    | none =>
      simp only [hsel, stepState]
      exact ⟨fun x hx => hx, by simp, _, rfl, hscan⟩
    | some best =>
      obtain ⟨nid, psf, ri⟩ := best
      simp only [hsel]
      by_cases hn : strStartsWith ri.name "LLM-Eval"
      · simp only [if_pos hn]
        match hcs : ri.conclusions with
        | [cs] =>
          have hap := applyLLMConclusions_preserves cs
            { s with iterations := s.iterations + 1,
                     oracleCalls := s.oracleCalls ++
                       (scanRulesAux ev s.llmEvaluated s.branch.nodes).2 }
          by_cases hcl : (applyLLMConclusions
            { s with iterations := s.iterations + 1,
                     oracleCalls := s.oracleCalls ++
                       (scanRulesAux ev s.llmEvaluated s.branch.nodes).2 } cs).branch.closed
          · simp only [if_pos hcl, stepState]
            refine ⟨?_, ?_, _, ?_, hscan⟩
            · intro x hx
              rw [hap.1]
              exact hx
            · rw [hap.2.2.1]
            · rw [hap.2.1]
          · simp only [if_neg hcl, stepState]
            refine ⟨?_, ?_, _, ?_, hscan⟩
            · intro x hx
              simp only [List.mem_cons]
              right
              rw [hap.1]
              exact hx
            · simp only [hap.2.2.1]
              exact Nat.le_refl _
            · simp only [hap.2.1]
        | [] =>
          simp only [stepState]
          exact ⟨fun x hx => hx, by simp, _, rfl, hscan⟩
        | cs1 :: cs2 :: rest =>
          simp only [stepState]
          exact ⟨fun x hx => hx, by simp, _, rfl, hscan⟩
      · simp only [if_neg hn, stepState]
        exact ⟨fun x hx => hx, by simp, _, rfl, hscan⟩
  · simp only [if_neg hg, stepState]
    exact ⟨fun x hx => hx, by simp, [], by simp, by simp⟩

theorem runLoop_iterations (ev : Option (Formula → Option BilateralTruthValue)) :
    ∀ (fuel : Nat) (s : EngineState),
      (runLoop ev fuel s).iterations ≤ s.iterations + fuel := by
  intro fuel
  induction fuel with
  | zero => intro s; simp [runLoop]
  | succ fuel ih =>
    intro s
    have hf := constructStep_facts ev s
    cases hstep : constructStep ev s with
    | stop s2 =>
      rw [hstep] at hf
      simp only [stepState] at hf
      simp only [runLoop, hstep]
      omega
    | next s2 =>
      rw [hstep] at hf
      simp only [stepState] at hf
      simp only [runLoop, hstep]
      have h2 := ih s2
      omega

theorem runLoop_callCount (ev : Option (Formula → Option BilateralTruthValue)) :
    ∀ (fuel : Nat) (s : EngineState) (φ : Formula), φ ∈ s.llmEvaluated →
      callCount (runLoop ev fuel s).oracleCalls φ = callCount s.oracleCalls φ := by
  intro fuel
  induction fuel with
  | zero => intro s φ _; rfl
  | succ fuel ih =>
    intro s φ h
    have hf := constructStep_facts ev s
    cases hstep : constructStep ev s with
    | stop s2 =>
      rw [hstep] at hf
      simp only [stepState] at hf
      obtain ⟨_, _, extra, hcalls, hextra⟩ := hf
      have hzero : callCount extra φ = 0 :=
        callCount_eq_zero extra φ fun ψ hψ heq => hextra ψ hψ (heq ▸ h)
      simp only [runLoop, hstep]
      rw [hcalls, callCount_append, hzero]
      omega
    | next s2 =>
      rw [hstep] at hf
      simp only [stepState] at hf
      obtain ⟨hsub, _, extra, hcalls, hextra⟩ := hf
      have hzero : callCount extra φ = 0 :=
        callCount_eq_zero extra φ fun ψ hψ heq => hextra ψ hψ (heq ▸ h)
      simp only [runLoop, hstep]
      rw [ih s2 φ (hsub h), hcalls, callCount_append, hzero]
      omega

/-! Claim theorems. -/

theorem checkContradictionAux_eq_any (b : Branch) (s : Sign) (φ : Formula) :
    ∀ l : List Sign, checkContradictionAux b s φ l =
      l.any fun os => decide (os ≠ s ∧ indexLookup b os φ ≠ []) := by
  intro l
  induction l with
  | nil => rfl
  | cons os rest ih =>
    by_cases h : os ≠ s ∧ indexLookup b os φ ≠ []
    · have hne : ¬(s = Sign.t ∧ os = Sign.t) := by
        rintro ⟨h1, h2⟩
        exact h.1 (h2.trans h1.symm)
      simp only [checkContradictionAux, if_pos h, if_neg hne, List.any_cons]
      rw [decide_eq_true h]
      simp
    · simp only [checkContradictionAux, if_neg h, List.any_cons, ih]
      rw [decide_eq_false h]
      simp

/-- C9: for every signed formula added to an ACrQ branch,
`_check_contradiction` returns true exactly when the per-sign index holds
the identical formula under a sign from {t, f, e} distinct from the new
sign: the bilateral-glut whitelist (guarded by `sign == t` and
`other_sign == t` inside a loop requiring `other_sign != sign`) can never
fire, so the ACrQ closure check is extensionally the plain distinct-sign
check. -/
theorem check_contradiction_extensionally_plain :
    ∀ (b : Branch) (sf : SignedFormula),
      checkContradiction b sf = checkContradictionPlain b sf := by
  intro b sf
  unfold checkContradiction checkContradictionPlain
  exact checkContradictionAux_eq_any b sf.sign sf.formula _

/-- C2: for every pair of formulas, the rule for `t: φ∨ψ` has exactly the
three conclusion branches `[t: φ]`, `[t: ψ]`, `[e: φ, e: ψ]`, and the rule
for `t: φ→ψ` has exactly `[f: φ]`, `[t: ψ]`, `[e: φ, e: ψ]`; each includes
the error branch. -/
theorem t_disjunction_t_implication_branches :
    ∀ (φ ψ : Formula),
      getWkrqConclusions ⟨Sign.t, Formula.binary "|" φ ψ⟩ =
        some [[⟨Sign.t, φ⟩], [⟨Sign.t, ψ⟩], [⟨Sign.e, φ⟩, ⟨Sign.e, ψ⟩]]
      ∧ getWkrqConclusions ⟨Sign.t, Formula.binary "->" φ ψ⟩ =
        some [[⟨Sign.f, φ⟩], [⟨Sign.t, ψ⟩], [⟨Sign.e, φ⟩, ⟨Sign.e, ψ⟩]] :=
  fun _ _ => ⟨rfl, rfl⟩

/-- The branch holding the single node `t: P(a)`. -/
def branchTP : Branch := addFormula emptyBranch ⟨Sign.t, pAtom⟩ 0

/-- C3: the rules for `m: ~φ` and `n: ~φ` swap to `[n: φ]` and `[m: φ]`
respectively (first two conjuncts, on the spec-modelled rules — the claim's
intended behaviour, matching the repository's tests); but evaluating the
ACrQ closure check of acrq_tableau.py at a branch carrying `t: P(a)` shows
that adding `m: P(a)` or `n: P(a)` DOES close the branch (last two
conjuncts), contradicting the claim's (and the function's own docstring's)
statement that m and n never participate in closure. -/
theorem m_n_negation_swap_and_closure_evaluation :
    getWkrqConclusions ⟨Sign.m, Formula.neg pAtom⟩ = some [[⟨Sign.n, pAtom⟩]]
    ∧ getWkrqConclusions ⟨Sign.n, Formula.neg pAtom⟩ = some [[⟨Sign.m, pAtom⟩]]
    ∧ checkContradiction branchTP ⟨Sign.m, pAtom⟩ = true
    ∧ checkContradiction branchTP ⟨Sign.n, pAtom⟩ = true :=
  ⟨rfl, rfl, by decide, by decide⟩

/-- C7: the construction loop executes its body at most 1000 times
(`max_iterations`, hard-coded in `ACrQTableau.construct`), regardless of
the initial formulas, the branching cap, and the oracle; the construction
is a total function, so it always returns a `TableauResult`. -/
theorem construct_iterations_le_1000 :
    ∀ (ev : Option (Formula → Option BilateralTruthValue))
      (initial : List SignedFormula) (maxBF : Nat),
      (constructStateACrQ ev initial maxBF).iterations ≤ 1000 := by
  intro ev initial maxBF
  have h := runLoop_iterations ev 1000 (initState initial maxBF)
  simpa [initState] using h

/-- C8 counterexample: with `max_branching_factor = 1` the branching cap is
already reached at loop entry (the loop body never runs), yet the returned
result carries `incomplete = false`, not `incomplete = true` as the claim
states. -/
theorem branch_cap_incomplete_flag_counterexample :
    (constructACrQ none [⟨Sign.t, pAtom⟩] 1).incomplete = false
    ∧ (constructStateACrQ none [⟨Sign.t, pAtom⟩] 1).iterations = 0
    ∧ (constructACrQ none [⟨Sign.t, pAtom⟩] 1).satisfiable = true := by
  refine ⟨by decide, by decide, by decide⟩

/-- C8 amended: when a cap stops the construction the engine still returns
a `TableauResult` (rather than raising), and satisfiability is reported as
satisfiable exactly when an open branch survives; but no `incomplete=true`
flag is set — `incomplete` is false on every result the engine builds. -/
theorem construct_result_flag_and_satisfiability :
    ∀ (ev : Option (Formula → Option BilateralTruthValue))
      (initial : List SignedFormula) (maxBF : Nat),
      (constructACrQ ev initial maxBF).incomplete = false
      ∧ (constructACrQ ev initial maxBF).satisfiable =
          decide (0 < (constructACrQ ev initial maxBF).openBranches) := by
  intro ev initial maxBF
  unfold constructACrQ resultOfState
  by_cases h : (constructStateACrQ ev initial maxBF).branch.closed <;> simp [h]

/-- C1: for every bilateral predicate name and ground argument tuple, the
ACrQ tableau built from `t: p(t̄)` and `t: p*(t̄)` keeps its branch open
(the pair is a glut) and reports satisfiable; while adding one and the
same formula under any two distinct signs from {t, f, e} closes the branch
and the construction reports unsatisfiable. -/
theorem acrq_glut_and_distinct_sign_closure :
    (∀ (p : String) (ts : List Term),
      (initBranch [⟨Sign.t, Formula.bpred p ts false⟩,
        ⟨Sign.t, Formula.bpred p ts true⟩]).closed = false
      ∧ (constructACrQ none [⟨Sign.t, Formula.bpred p ts false⟩,
          ⟨Sign.t, Formula.bpred p ts true⟩] 100).satisfiable = true)
    ∧ (∀ (u w : Sign) (φ : Formula),
        u ∈ [Sign.t, Sign.f, Sign.e] → w ∈ [Sign.t, Sign.f, Sign.e] → u ≠ w →
        (initBranch [⟨u, φ⟩, ⟨w, φ⟩]).closed = true
        ∧ (constructACrQ none [⟨u, φ⟩, ⟨w, φ⟩] 100).satisfiable = false) := by
  constructor
  · intro p ts
    have hc1 : checkContradiction emptyBranch ⟨Sign.t, Formula.bpred p ts false⟩ = false :=
      checkContradiction_empty_entries _ _ rfl
    have hc2 : checkContradiction
        (addFormula emptyBranch ⟨Sign.t, Formula.bpred p ts false⟩ 0)
        ⟨Sign.t, Formula.bpred p ts true⟩ = false := by
      apply checkContradiction_all_t
      · intro q hq
        simp [addFormula, emptyBranch] at hq
        rw [hq]
      · rfl
    have hb : (initBranch [⟨Sign.t, Formula.bpred p ts false⟩,
        ⟨Sign.t, Formula.bpred p ts true⟩]).closed = false := by
      show ((emptyBranch.closed
        || checkContradiction emptyBranch ⟨Sign.t, Formula.bpred p ts false⟩)
        || checkContradiction (addFormula emptyBranch ⟨Sign.t, Formula.bpred p ts false⟩ 0)
             ⟨Sign.t, Formula.bpred p ts true⟩) = false
      rw [hc1, hc2]
      rfl
    refine ⟨hb, ?_⟩
    have hscan : scanRulesAux none []
        (initBranch [⟨Sign.t, Formula.bpred p ts false⟩,
          ⟨Sign.t, Formula.bpred p ts true⟩]).nodes = ([], []) := by
      apply scanRulesAux_atomic_no_evaluator
      intro q hq
      have hnodes : (initBranch [⟨Sign.t, Formula.bpred p ts false⟩,
          ⟨Sign.t, Formula.bpred p ts true⟩]).nodes =
        [(0, ⟨Sign.t, Formula.bpred p ts false⟩),
         (1, ⟨Sign.t, Formula.bpred p ts true⟩)] := rfl
      rw [hnodes] at hq
      simp at hq
      rcases hq with h | h <;> subst h <;> exact ⟨rfl, Or.inl rfl⟩
    have h1 : (scanRulesAux none
        (initState [⟨Sign.t, Formula.bpred p ts false⟩,
          ⟨Sign.t, Formula.bpred p ts true⟩] 100).llmEvaluated
        (initState [⟨Sign.t, Formula.bpred p ts false⟩,
          ⟨Sign.t, Formula.bpred p ts true⟩] 100).branch.nodes).1 = [] := by
      have h2 : scanRulesAux none
          (initState [⟨Sign.t, Formula.bpred p ts false⟩,
            ⟨Sign.t, Formula.bpred p ts true⟩] 100).llmEvaluated
          (initState [⟨Sign.t, Formula.bpred p ts false⟩,
            ⟨Sign.t, Formula.bpred p ts true⟩] 100).branch.nodes = ([], []) := hscan
      rw [h2]
    have hrb := runLoop_branch_no_rules none 999
      (initState [⟨Sign.t, Formula.bpred p ts false⟩,
        ⟨Sign.t, Formula.bpred p ts true⟩] 100) h1
    show (resultOfState (runLoop none 1000
      (initState [⟨Sign.t, Formula.bpred p ts false⟩,
        ⟨Sign.t, Formula.bpred p ts true⟩] 100))).satisfiable = true
    have hcl : (runLoop none 1000
        (initState [⟨Sign.t, Formula.bpred p ts false⟩,
          ⟨Sign.t, Formula.bpred p ts true⟩] 100)).branch.closed = false := by
      have h3 : (runLoop none 1000
          (initState [⟨Sign.t, Formula.bpred p ts false⟩,
            ⟨Sign.t, Formula.bpred p ts true⟩] 100)).branch =
          (initState [⟨Sign.t, Formula.bpred p ts false⟩,
            ⟨Sign.t, Formula.bpred p ts true⟩] 100).branch := hrb
      rw [h3]
      exact hb
    simp [resultOfState, hcl]
  · intro u w φ hu hw hne
    simp only [List.mem_cons, List.not_mem_nil, or_false] at hu hw
    rcases hu with rfl | rfl | rfl <;> rcases hw with rfl | rfl | rfl <;>
      first
        | exact absurd rfl hne
        | (constructor
           · simp [initBranch, initBranchAux, addFormula, emptyBranch, checkContradiction,
               checkContradictionAux, indexLookup, lookupEntries, List.filterMap_cons]
           · apply construct_closed_unsat
             simp [initBranch, initBranchAux, addFormula, emptyBranch, checkContradiction,
               checkContradictionAux, indexLookup, lookupEntries, List.filterMap_cons])

theorem acrq_glut_and_distinct_sign_closure_witness :
    ((Sign.t : Sign) ∈ [Sign.t, Sign.f, Sign.e]
      ∧ (Sign.f : Sign) ∈ [Sign.t, Sign.f, Sign.e] ∧ Sign.t ≠ Sign.f)
    ∧ (constructACrQ none [⟨Sign.t, Formula.bpred "Flying" [tweety] false⟩,
        ⟨Sign.t, Formula.bpred "Flying" [tweety] true⟩] 100).satisfiable = true
    ∧ (initBranch [⟨Sign.t, pAtom⟩, ⟨Sign.f, pAtom⟩]).closed = true
    ∧ (constructACrQ none [⟨Sign.t, pAtom⟩, ⟨Sign.f, pAtom⟩] 100).satisfiable = false :=
  ⟨⟨by decide, by decide, by decide⟩,
   (acrq_glut_and_distinct_sign_closure.1 "Flying" [tweety]).2,
   (acrq_glut_and_distinct_sign_closure.2 Sign.t Sign.f pAtom
     (by decide) (by decide) (by decide)).1,
   (acrq_glut_and_distinct_sign_closure.2 Sign.t Sign.f pAtom
     (by decide) (by decide) (by decide)).2⟩

/-- C4: the oracle rule converts the bilateral verdict `<pos, neg>` on an
atomic formula into the conclusions `sign(pos): φ` and `sign(neg): φ*`
with TRUE giving t, FALSE giving f and UNDEFINED giving e; consequently,
`[t: Human(socrates)]` with the oracle answering `<FALSE, TRUE>` is
unsatisfiable: the conclusion `f: Human(socrates)` closes against the
input. -/
theorem llm_oracle_rule_signs_and_refutation_scenario :
    (∀ (g : Formula → Option BilateralTruthValue) (evl : List Formula) (s : Sign)
       (nm : String) (ts : List Term) (bv : BilateralTruthValue),
       g (Formula.pred nm ts) = some bv → Formula.pred nm ts ∉ evl →
       createLLMEvaluationRule g evl ⟨s, Formula.pred nm ts⟩ =
         (some { name := "LLM-Eval", priority := 5, complexityCost := 2,
                 conclusions := [[⟨signOfTruthValue bv.positive, Formula.pred nm ts⟩,
                                  ⟨signOfTruthValue bv.negative, Formula.bpred nm ts true⟩]] },
          [Formula.pred nm ts]))
    ∧ signOfTruthValue TruthValue.TRUE = Sign.t
    ∧ signOfTruthValue TruthValue.FALSE = Sign.f
    ∧ signOfTruthValue TruthValue.UNDEFINED = Sign.e
    ∧ (constructACrQ (some oracleRefutesHuman)
        [⟨Sign.t, humanSocrates⟩] 100).satisfiable = false := by
  refine ⟨?_, rfl, rfl, rfl, by decide⟩
  intro g evl s nm ts bv hg hmem
  unfold createLLMEvaluationRule
  rw [if_neg (by simp [Formula.isAtomic]), if_neg hmem, hg]
  rfl

theorem llm_oracle_rule_signs_and_refutation_scenario_witness :
    oracleRefutesHuman humanSocrates = some ⟨TruthValue.FALSE, TruthValue.TRUE⟩
    ∧ humanSocrates ∉ ([] : List Formula)
    ∧ createLLMEvaluationRule oracleRefutesHuman [] ⟨Sign.t, humanSocrates⟩ =
        (some { name := "LLM-Eval", priority := 5, complexityCost := 2,
                conclusions := [[⟨Sign.f, humanSocrates⟩,
                                 ⟨Sign.t, Formula.bpred "Human" [socrates] true⟩]] },
         [humanSocrates]) :=
  ⟨by decide, by decide,
   llm_oracle_rule_signs_and_refutation_scenario.1 oracleRefutesHuman [] Sign.t
     "Human" [socrates] ⟨TruthValue.FALSE, TruthValue.TRUE⟩ (by decide) (by decide)⟩

/-- The two-atom input of the claim-C5 run. -/
def c5Init : List SignedFormula := [⟨Sign.t, pAtom⟩, ⟨Sign.t, qAtom⟩]

/-- C5 counterexample: with the input `[t: P(a), t: Q(a)]` and an oracle
answering a glut on every atom, the run calls the oracle on `Q(a)` twice —
once during the first rule-selection scan and again during the second scan,
before `Q(a)`'s own rule has been applied and memoized — refuting "the
oracle is called at most once per atomic formula per branch". -/
theorem oracle_called_twice_counterexample :
    callCount (constructStateACrQ (some oracleAllGlut) c5Init 100).oracleCalls qAtom
      = 2 := by decide

/-- C5 amended: the memoization only starts once the formula is marked
evaluated (at rule application): from any state in which a formula is
already marked evaluated on the branch, the rest of the construction makes
no further oracle call for it; before the mark, each rule-selection scan
may call the oracle again. -/
theorem oracle_never_called_after_marking :
    ∀ (ev : Option (Formula → Option BilateralTruthValue)) (fuel : Nat)
      (s : EngineState) (φ : Formula), φ ∈ s.llmEvaluated →
      callCount (runLoop ev fuel s).oracleCalls φ = callCount s.oracleCalls φ :=
  runLoop_callCount

/-- A state whose branch carries `t: P(a)` with `P(a)` already marked
evaluated. -/
def markedState : EngineState :=
  { branch := initBranch [⟨Sign.t, pAtom⟩]
    nodeCounter := 1
    llmEvaluated := [pAtom]
    oracleCalls := []
    iterations := 0
    maxBranchingFactor := 100
    unmodeledRuleHit := false }

theorem oracle_never_called_after_marking_witness :
    pAtom ∈ markedState.llmEvaluated
    ∧ callCount (runLoop (some oracleAllGlut) 1000 markedState).oracleCalls pAtom
        = callCount markedState.oracleCalls pAtom :=
  ⟨by decide,
   oracle_never_called_after_marking (some oracleAllGlut) 1000 markedState pAtom
     (by decide)⟩

/-- The input of the claim-C6 run: the oracle raises on `Broken` and
answers on `Good`. -/
def c6Init : List SignedFormula := [⟨Sign.t, brokenAtom⟩, ⟨Sign.t, goodAtom⟩]

/-- C6: when the oracle raises on a formula (modelled by the evaluator
returning `none`), no rule and hence no conclusion is produced for it and
it is not marked evaluated (first conjunct, for any formula); in the
concrete run, `Broken` stays unmarked and keeps its single initial node
while the engine continues — `Good` is evaluated and the construction
terminates normally with a satisfiable result, no exception escaping. -/
theorem oracle_failure_contained :
    (∀ (g : Formula → Option BilateralTruthValue) (evl : List Formula)
       (sf : SignedFormula), g sf.formula = none →
       (createLLMEvaluationRule g evl sf).1 = none)
    ∧ brokenAtom ∉ (constructStateACrQ (some oracleFailsBroken) c6Init 100).llmEvaluated
    ∧ goodAtom ∈ (constructStateACrQ (some oracleFailsBroken) c6Init 100).llmEvaluated
    ∧ ((constructStateACrQ (some oracleFailsBroken) c6Init 100).branch.nodes.filter
        fun p => decide (p.2.formula = brokenAtom)) = [(0, ⟨Sign.t, brokenAtom⟩)]
    ∧ (constructACrQ (some oracleFailsBroken) c6Init 100).satisfiable = true := by
  refine ⟨?_, by decide, by decide, by decide, by decide⟩
  intro g evl sf hg
  unfold createLLMEvaluationRule
  by_cases h1 : sf.formula.isAtomic = true
  · rw [if_neg (not_not_intro h1)]
    by_cases h2 : sf.formula ∈ evl
    · rw [if_pos h2]
    · rw [if_neg h2, hg]
  · rw [if_pos h1]

theorem oracle_failure_contained_witness :
    oracleFailsBroken brokenAtom = none
    ∧ (createLLMEvaluationRule oracleFailsBroken [] ⟨Sign.t, brokenAtom⟩).1 = none :=
  ⟨by decide,
   oracle_failure_contained.1 oracleFailsBroken [] ⟨Sign.t, brokenAtom⟩ (by decide)⟩

/-- C10: `check_satisfiability` maps statement signs through
{t→t, f→f, e→e} and silently coerces m, n and v (and anything else) to t;
every present, non-empty, non-comment, parseable statement contributes its
signed formula to the tableau input; and with no usable statements it
returns `(True, [])` without consulting the tableau at all. -/
theorem theory_manager_sign_handling :
    (signMapGet "t" = Sign.t ∧ signMapGet "f" = Sign.f ∧ signMapGet "e" = Sign.e
      ∧ signMapGet "m" = Sign.t ∧ signMapGet "n" = Sign.t ∧ signMapGet "v" = Sign.t)
    ∧ (∀ (parse : String → Option Formula) (stmts : List Statement) (st : Statement)
         (fs : String) (φ : Formula),
         st ∈ stmts → st.formula = some fs → fs ≠ "" → strStartsWith fs "//" = false →
         parse fs = some φ →
         (⟨signMapGet st.sign, φ⟩ : SignedFormula) ∈ collectFormulas parse stmts)
    ∧ (∀ (parse : String → Option Formula)
         (tab1 tab2 : List SignedFormula → TableauResult)
         (ana1 ana2 : TableauResult → List InformationState)
         (stmts : List Statement),
         collectFormulas parse stmts = [] →
         checkSatisfiability parse tab1 ana1 stmts = (true, [])
         ∧ checkSatisfiability parse tab1 ana1 stmts
             = checkSatisfiability parse tab2 ana2 stmts) := by
  refine ⟨⟨by decide, by decide, by decide, by decide, by decide, by decide⟩, ?_, ?_⟩
  · intro parse stmts st fs φ hst hform hne hcomment hparse
    apply List.mem_filterMap.mpr
    refine ⟨st, hst, ?_⟩
    rw [hform]
    dsimp only
    have hcF : ¬(strStartsWith fs "//" = true) := by simp [hcomment]
    rw [if_neg hne, if_neg hcF, hparse]
  · intro parse tab1 tab2 ana1 ana2 stmts hcol
    constructor
    · simp [checkSatisfiability, hcol]
    · simp [checkSatisfiability, hcol]

/-- A parser stub recognising exactly the string `P(a)`. -/
def parseStub : String → Option Formula :=
  fun s => if s = "P(a)" then some pAtom else none

/-- A statement whose sign string is `m`. -/
def stmtP : Statement :=
  { id := "S0001", naturalLanguage := "a is P", formula := some "P(a)", sign := "m" }

/-- A tableau-construction stub for the witness. -/
def tabStub : List SignedFormula → TableauResult :=
  fun l => constructACrQ none l 2

/-- An information-state analysis stub for the witness. -/
def anaStub : TableauResult → List InformationState := fun _ => []

theorem theory_manager_sign_handling_witness :
    (stmtP ∈ [stmtP] ∧ stmtP.formula = some "P(a)" ∧ "P(a)" ≠ ""
      ∧ strStartsWith "P(a)" "//" = false ∧ parseStub "P(a)" = some pAtom
      ∧ (⟨signMapGet stmtP.sign, pAtom⟩ : SignedFormula) ∈ collectFormulas parseStub [stmtP])
    ∧ (collectFormulas parseStub [] = []
      ∧ checkSatisfiability parseStub tabStub anaStub [] = (true, [])) :=
  ⟨⟨by decide, by decide, by decide, by decide, by decide,
    theory_manager_sign_handling.2.1 parseStub [stmtP] stmtP "P(a)" pAtom
      (by decide) (by decide) (by decide) (by decide) (by decide)⟩,
   ⟨rfl,
    (theory_manager_sign_handling.2.2 parseStub tabStub tabStub anaStub anaStub []
      rfl).1⟩⟩

end Wkrq
